import Mathlib

/-!
Verification of the RosettaCloud interactive-lab lifecycle manager:
`app/backends/lab_backends.py` (StatefulSet-slot variant, called variant A below),
`app/backends/labs_backends.py` (pod-per-lab variant, variant B), and the
web-socket frame helpers of `app/services/lab_service.py`.

Shallow embedding conventions: Python dicts become association lists over
`String` keys, timestamps become `Int` seconds, orchestrator (Kubernetes) calls
become explicit outcome environments passed to each operation, and code that
raises is modelled by explicit failure results.
-/

namespace RosettaCloud

/-- Python dict lookup `m.get(k)`: the value bound to `k`, if any (keys are
unique in a dict, so the first binding is the binding). -/
def getEntry {α : Type} : List (String × α) → String → Option α
  | [], _ => none
  | p :: m, k => if p.1 = k then some p.2 else getEntry m k

/-- Python dict removal `m.pop(k, None)`: drop every binding of `k`. -/
def eraseEntry {α : Type} (m : List (String × α)) (k : String) : List (String × α) :=
  m.filter (fun p => p.1 != k)

/-- Python dict assignment `m[k] = v` (binding order is immaterial to every claim). -/
def setEntry {α : Type} (m : List (String × α)) (k : String) (v : α) : List (String × α) :=
  (k, v) :: eraseEntry m k

/-- Default of env var `LAB_STATEFULSET_NAME` in `lab_backends.py`. -/
def STATEFULSET_NAME : String := "interactive-labs"

/-- Default of env var `LAB_WILDCARD_DOMAIN` in `lab_backends.py`. -/
def WILDCARD_DOMAIN : String := "dev.labs.rosettacloud.app"

/-- `svc_name` from `lab_backends.py`. -/
def svcName (l : String) : String := l ++ "-svc"

/-- `lab_host` from `lab_backends.py`. -/
def labHost (l : String) : String := l ++ "." ++ WILDCARD_DOMAIN

/-- Python `str.split('-')`, character-level: always a non-empty group list. -/
def splitOnDash : List Char → List (List Char)
  | [] => [[]]
  | c :: cs =>
    if c = '-' then [] :: splitOnDash cs
    else
      match splitOnDash cs with
      | [] => [[c]]
      | g :: gs => (c :: g) :: gs

/-- One decimal digit of `int(...)`. -/
def digitVal (c : Char) : Option Nat :=
  if 48 ≤ c.toNat ∧ c.toNat ≤ 57 then some (c.toNat - 48) else none

def parseDigitsGo : List Char → Nat → Option Nat
  | [], acc => some acc
  | c :: cs, acc =>
    match digitVal c with
    | some d => parseDigitsGo cs (acc * 10 + d)
    | none => none

/-- Python `int(...)` on the plain decimal strings pod ordinals are made of
(the empty or non-digit case raises `ValueError`, modelled by `none`). -/
def parseDecimal : List Char → Option Nat
  | [] => none
  | c :: cs => parseDigitsGo (c :: cs) 0

/-- `int(pod.metadata.name.split('-')[-1])` from `_get_active_pods`
(`int` on the decimal-digit tail; a non-numeric tail raises `ValueError`
and the pod is skipped, modelled by `Option`). -/
def podIndex (name : String) : Option Nat :=
  parseDecimal ((splitOnDash name.toList).getLastD [])

/-- `pod.metadata.name.startswith(f"{STATEFULSET_NAME}-")`. -/
def podHasStsName (name : String) : Bool :=
  (STATEFULSET_NAME ++ "-").toList.isPrefixOf name.toList

/-- `_get_active_pods` (`lab_backends.py` lines 387-408) applied to a successful
listing of pod names labelled `app=interactive-labs`: keep the pods whose name
starts with `f"{STATEFULSET_NAME}-"` and carries a numeric index, and return
those indices. -/
def activeIndices (pods : List String) : List Nat :=
  pods.filterMap (fun n => if podHasStsName n then podIndex n else none)

/-- The `while idx in active_indices: idx += 1` loop of `_find_available_index`.
The fuel argument is an artifact of the embedding; the loop terminates because
the index set is finite, and the chosen fuel is proved adequate below. -/
def smallestFreeGo (l : List Nat) : Nat → Nat → Nat
  | 0, i => i
  | f + 1, i => if i ∈ l then smallestFreeGo l f (i + 1) else i

/-- Smallest non-negative integer not in `l` (the loop started at `idx = 0`). -/
def smallestFree (l : List Nat) : Nat :=
  smallestFreeGo l (l.foldr (fun x m => max (x + 1) m) 0) 0

/-- `_find_available_index` (`lab_backends.py` lines 410-421) on a successful
pod listing: the set of active indices is re-derived from the listing alone. -/
def findAvailableIndex (pods : List String) : Nat :=
  smallestFree (activeIndices pods)

/-- The `{"minutes": .., "seconds": .., "total_seconds": ..}` dict
returned by `_time_left`. -/
structure TimeParts where
  minutes : Nat
  seconds : Nat
  totalSeconds : Nat
deriving DecidableEq

/-- `_time_left` (`lab_backends.py` lines 423-436 and identically
`labs_backends.py` lines 319-332): `left = max(0, POD_TTL_SECS - int(now - ts))`,
split as `left // 60` minutes and `left % 60` seconds.  `ttl` is the configured
`POD_TTL_SECS` (default 3600) and timestamps are integral epoch seconds. -/
def timeLeft (created : List (String × Int)) (ttl : Int) (labId : String) (now : Int) :
    Option TimeParts :=
  match getEntry created labId with
  | none => none
  | some ts =>
    some ⟨(ttl - (now - ts)).toNat / 60, (ttl - (now - ts)).toNat % 60, (ttl - (now - ts)).toNat⟩

/-- One HTTP path entry of an ingress rule (`V1HTTPIngressPath`). -/
structure IngressPath where
  path : String
  pathType : String
  backendService : String
  backendPort : Nat
deriving DecidableEq

/-- One host rule of the shared ingress object (`V1IngressRule`). -/
structure IngressRule where
  host : String
  paths : List IngressPath
deriving DecidableEq

/-- The rule `_patch_ingress` appends for a lab: host `<lab_id>.<domain>`,
single path `/` of type `Prefix` routed to `svc_name(lab_id)` port 80. -/
def labRule (labId : String) : IngressRule :=
  ⟨labHost labId, [⟨"/", "Prefix", svcName labId, 80⟩]⟩

/-- `_patch_ingress` (`lab_backends.py` lines 343-385): with the current rule
list read from the ingress (`None` becomes `[]`), drop every rule whose host is
the lab's host, then append the lab's rule iff `add`; the resulting list is
written back in full. -/
def patchIngressRules (rules : Option (List IngressRule)) (labId : String) (add : Bool) :
    List IngressRule :=
  let kept := (rules.getD []).filter (fun r => r.host != labHost labId)
  if add then kept ++ [labRule labId] else kept

/-- Outcome of one orchestrator delete/read call, after the retry decorator has
given up: success, a tolerated 404, or a persistent error (a raise). -/
inductive KRes where
  | ok : KRes
  | notFound : KRes
  | err : KRes
deriving DecidableEq

/-- Outcome of `_scale`: success, an error before the replica patch was
written, or (only possible on the scale-up wait) an error after it. -/
inductive ScaleRes where
  | ok : ScaleRes
  | errBefore : ScaleRes
  | errAfter : ScaleRes
deriving DecidableEq

/-- `_scale(target)` (`lab_backends.py` lines 260-303): reads the current
replica count, returns at once when it already matches, otherwise patches it;
scaling up additionally waits for readiness and can time out after the patch
succeeded.  Result: new replica count and whether the call returned normally. -/
def scaleA (current target : Nat) (res : ScaleRes) : Nat × Bool :=
  if current = target then (current, true)
  else if current < target then
    match res with
    | ScaleRes.ok => (target, true)
    | ScaleRes.errBefore => (current, false)
    | ScaleRes.errAfter => (target, false)
  else
    match res with
    | ScaleRes.ok => (target, true)
    | ScaleRes.errBefore => (current, false)
    | ScaleRes.errAfter => (current, false)

/-- In-memory registry of the StatefulSet variant (`EKSLabs.__init__` in
`lab_backends.py`): `_active : lab_id → replica index`,
`_created : lab_id → epoch seconds`, plus the StatefulSet replica count held by
the orchestrator (its pods carry ordinals `0..replicas-1`). -/
structure LabStateA where
  active : List (String × Nat)
  created : List (String × Int)
  replicas : Nat
deriving DecidableEq

/-- Orchestrator outcomes consumed by one `stop` call of variant A: the ingress
read-modify-write (its read raises even on 404 here), the service deletion
(404-tolerant), and the scale-down. -/
structure StopEnvA where
  patchIngress : Bool
  deleteSvc : KRes
  scale : ScaleRes
deriving DecidableEq

/-- Result of variant A `stop`: final state, returned boolean, and the names of
the orchestrator operations that were invoked. -/
structure StopOutA where
  state : LabStateA
  ret : Bool
  calls : List String
deriving DecidableEq

/-- `max(self._active.values(), default=-1)`. -/
def maxIdxInt (m : List (String × Nat)) : Int :=
  m.foldr (fun p r => max (p.2 : Int) r) (-1)

/-- `EKSLabs.stop` of `lab_backends.py` (lines 480-510): pop the lab from
`_active` (returning `False` at once when absent), pop `_created`, then remove
the ingress rule, delete the service, and scale down when the stopped lab held
the highest index; on any raise, restore only the `_active` entry and return
`False`. -/
def stopA (s : LabStateA) (env : StopEnvA) (labId : String) : StopOutA :=
  match getEntry s.active labId with
  | none => ⟨s, false, []⟩
  | some idx =>
    if env.patchIngress = false then
      ⟨⟨setEntry (eraseEntry s.active labId) labId idx, eraseEntry s.created labId, s.replicas⟩,
        false, ["patch_ingress"]⟩
    else if env.deleteSvc = KRes.err then
      ⟨⟨setEntry (eraseEntry s.active labId) labId idx, eraseEntry s.created labId, s.replicas⟩,
        false, ["patch_ingress", "delete_service"]⟩
    else if (idx : Int) > maxIdxInt (eraseEntry s.active labId) then
      if (scaleA s.replicas (maxIdxInt (eraseEntry s.active labId) + 1).toNat env.scale).2 then
        ⟨⟨eraseEntry s.active labId, eraseEntry s.created labId,
            (scaleA s.replicas (maxIdxInt (eraseEntry s.active labId) + 1).toNat env.scale).1⟩,
          true, ["patch_ingress", "delete_service", "scale"]⟩
      else
        ⟨⟨setEntry (eraseEntry s.active labId) labId idx, eraseEntry s.created labId,
            (scaleA s.replicas (maxIdxInt (eraseEntry s.active labId) + 1).toNat env.scale).1⟩,
          false, ["patch_ingress", "delete_service", "scale"]⟩
    else
      ⟨⟨eraseEntry s.active labId, eraseEntry s.created labId, s.replicas⟩, true,
        ["patch_ingress", "delete_service"]⟩

/-- Orchestrator outcomes consumed by one `launch` call of variant A:
`_ensure_statefulset`, the pod listing of `_get_active_pods` (whose failure is
swallowed, leaving an empty index list), `_scale`, `_create_lab_svc` (409
counts as success), `_patch_ingress`, the environment of the best-effort
cleanup `stop`, and the current time recorded into `_created`. -/
structure LaunchEnvA where
  ensureSts : Bool
  listOk : Bool
  scale : ScaleRes
  createSvc : Bool
  patchIngress : Bool
  stopEnv : StopEnvA
  now : Int
deriving DecidableEq

/-- Result of variant A `launch`: final state and whether the lab id was
returned (`false` means the call re-raised after the cleanup attempt). -/
structure LaunchOutA where
  state : LabStateA
  ok : Bool
deriving DecidableEq

/-- The index list `_get_active_pods` hands to `_find_available_index` inside
`launch`: the live listing of a StatefulSet at `r` replicas holds the pods of
ordinals `0..r-1`; a failed (swallowed) listing yields `[]`. -/
def launchPods (s : LabStateA) (env : LaunchEnvA) : List Nat :=
  if env.listOk then List.range s.replicas else []

/-- The index `_find_available_index` yields inside `launch`: the smallest
index free in the live listing (which degrades to `[]` when the swallowed
listing call failed). -/
def launchIdx (s : LabStateA) (env : LaunchEnvA) : Nat :=
  smallestFree (launchPods s env)

/-- The `max(self._active.values(), default=-1)` check and conditional
`_scale(idx + 1)` of `launch`: resulting state and whether it returned
normally. -/
def launchScaled (s : LabStateA) (env : LaunchEnvA) : LabStateA × Bool :=
  if (launchIdx s env : Int) > maxIdxInt s.active then
    (⟨s.active, s.created, (scaleA s.replicas (launchIdx s env + 1) env.scale).1⟩,
      (scaleA s.replicas (launchIdx s env + 1) env.scale).2)
  else (s, true)

/-- `EKSLabs.launch` of `lab_backends.py` (lines 441-478): ensure the
StatefulSet, pick the smallest free index from the live pod listing, scale up
when the index exceeds every registered index, create the dedicated service,
add the ingress rule, and only then register the lab in `_active`/`_created`;
on any raise, run a best-effort `stop(lab_id)` (exceptions suppressed) and
fail. -/
def launchA (s : LabStateA) (env : LaunchEnvA) (tag : String) : LaunchOutA :=
  if env.ensureSts = false then ⟨(stopA s env.stopEnv tag).state, false⟩
  else if (launchScaled s env).2 = false then
    ⟨(stopA (launchScaled s env).1 env.stopEnv tag).state, false⟩
  else if env.createSvc = false then
    ⟨(stopA (launchScaled s env).1 env.stopEnv tag).state, false⟩
  else if env.patchIngress = false then
    ⟨(stopA (launchScaled s env).1 env.stopEnv tag).state, false⟩
  else
    ⟨⟨setEntry (launchScaled s env).1.active tag (launchIdx s env),
        setEntry (launchScaled s env).1.created tag env.now,
        (launchScaled s env).1.replicas⟩, true⟩

/-- One public call made against the variant A backend, together with the
orchestrator outcomes it observes. -/
inductive OpA where
  | launch (tag : String) (env : LaunchEnvA) : OpA
  | stop (labId : String) (env : StopEnvA) : OpA
deriving DecidableEq

/-- Effect of one call on the variant A state. -/
def stepA (s : LabStateA) : OpA → LabStateA
  | OpA.launch tag env => (launchA s env tag).state
  | OpA.stop labId env => (stopA s env labId).state

/-- A sequence of `launch`/`stop` calls, each run to completion in order. -/
def runA (s : LabStateA) : List OpA → LabStateA
  | [] => s
  | op :: ops => runA (stepA s op) ops

/-- The freshly initialised backend: empty registry, StatefulSet at 0 replicas
(`_ensure_statefulset` creates it with `replicas=0`). -/
def initA : LabStateA := ⟨[], [], 0⟩

/-- Every orchestrator pod listing performed by the call succeeded. -/
def listingOk : OpA → Bool
  | OpA.launch _ env => env.listOk
  | OpA.stop _ _ => true

/-- The labs a janitor tick finds expired (`_janitor_loop`, `lab_backends.py`
lines 581-606): those with `now - created_at > POD_TTL_SECS`, strictly. -/
def expiredLabs (created : List (String × Int)) (ttl now : Int) : List String :=
  (created.filter (fun p => decide (now - p.2 > ttl))).map Prod.fst

/-- One janitor tick of variant A: snapshot the expired labs, then call `stop`
on each in turn, each call wrapped in its own try/except so that one failure
cannot stop the sweep.  Returns the final state and the labs `stop` was called
on, in order. -/
def janitorTickA (s : LabStateA) (ttl now : Int) (env : String → StopEnvA) :
    LabStateA × List String :=
  let exp := expiredLabs s.created ttl now
  (exp.foldl (fun st l => (stopA st (env l) l).state) s, exp)

/-- The registry-derived part of the `get_lab_info` snapshot (`lab_backends.py`
lines 512-566).  The `status`/`pod_ip` fields are read live from the
orchestrator and never influence control flow; they are omitted here. -/
structure LabInfoA where
  labId : String
  hostname : String
  index : Nat
  timeRemaining : Option TimeParts
deriving DecidableEq

/-- `EKSLabs.get_lab_info` of `lab_backends.py`, registry part: `None` when the
lab is not in `_active`, otherwise a snapshot embedding `_time_left`. -/
def getLabInfoA (s : LabStateA) (ttl : Int) (labId : String) (now : Int) : Option LabInfoA :=
  match getEntry s.active labId with
  | none => none
  | some idx => some ⟨labId, labHost labId, idx, timeLeft s.created ttl labId now⟩

/-- In-memory registry of the pod-per-lab variant (`labs_backends.py`):
`_active : lab_id → pod name`, `_created : lab_id → epoch seconds`. -/
structure LabStateB where
  active : List (String × String)
  created : List (String × Int)
deriving DecidableEq

/-- Orchestrator outcomes consumed by one `stop` call of variant B: the ingress
rule removal (its own 404 is tolerated here), the service deletion and the pod
deletion (both 404-tolerant). -/
structure StopEnvB where
  patchIngress : KRes
  deleteSvc : KRes
  deletePod : KRes
deriving DecidableEq

/-- Result of variant B `stop`. -/
structure StopOutB where
  state : LabStateB
  ret : Bool
  calls : List String
deriving DecidableEq

/-- `pod_name` from `labs_backends.py`. -/
def podNameB (labId : String) : String := "lab-" ++ labId

/-- `EKSLabs.stop` of `labs_backends.py` (lines 389-415): return `False` at
once when the lab is unknown, otherwise pop both registry entries first, then
run the three deletions (each 404-tolerant); a persistent error makes the call
return `False`, with nothing restored. -/
def stopB (s : LabStateB) (env : StopEnvB) (labId : String) : StopOutB :=
  match getEntry s.active labId with
  | none => ⟨s, false, []⟩
  | some _ =>
    let s1 : LabStateB := ⟨eraseEntry s.active labId, eraseEntry s.created labId⟩
    let allOk := env.patchIngress ≠ KRes.err ∧ env.deleteSvc ≠ KRes.err ∧
      env.deletePod ≠ KRes.err
    ⟨s1, decide allOk, ["patch_ingress", "delete_service", "delete_pod"]⟩

/-- Orchestrator outcomes consumed by one `launch` call of variant B:
`_create_lab_pod` (409 counts as success, and a ready-wait timeout still
returns the pod name), `_create_lab_svc` (409 counts as success),
`_patch_ingress`, the cleanup `stop` environment, and the current time. -/
structure LaunchEnvB where
  createPod : Bool
  createSvc : Bool
  patchIngress : Bool
  stopEnv : StopEnvB
  now : Int
deriving DecidableEq

/-- Result of variant B `launch`. -/
structure LaunchOutB where
  state : LabStateB
  ok : Bool
deriving DecidableEq

/-- `EKSLabs.launch` of `labs_backends.py` (lines 356-387): create the pod,
create the service, add the ingress rule, then register the lab; on any raise,
run a best-effort `stop(lab_id)` (exceptions suppressed) and fail. -/
def launchB (s : LabStateB) (env : LaunchEnvB) (tag : String) : LaunchOutB :=
  if env.createPod = false then ⟨(stopB s env.stopEnv tag).state, false⟩
  else if env.createSvc = false then ⟨(stopB s env.stopEnv tag).state, false⟩
  else if env.patchIngress = false then ⟨(stopB s env.stopEnv tag).state, false⟩
  else
    ⟨⟨setEntry s.active tag (podNameB tag), setEntry s.created tag env.now⟩, true⟩

/-- The state invariant of the StatefulSet variant: registered lab ids are
distinct, their replica indices are distinct, and every registered index is
backed by a live pod (index below the replica count). -/
def InvA (s : LabStateA) : Prop :=
  (s.active.map Prod.fst).Nodup ∧ (s.active.map Prod.snd).Nodup ∧
    ∀ p ∈ s.active, p.2 < s.replicas

/-- A stop environment in which every orchestrator call succeeds. -/
def stopEnvOkA : StopEnvA := ⟨true, KRes.ok, ScaleRes.ok⟩

/-- A stop environment in which the ingress read-modify-write raises. -/
def stopEnvPatchErrA : StopEnvA := ⟨false, KRes.ok, ScaleRes.ok⟩

/-- A launch environment in which every orchestrator call succeeds. -/
def launchEnvOkA : LaunchEnvA := ⟨true, true, ScaleRes.ok, true, true, stopEnvOkA, 0⟩

/-- A launch environment in which the pod listing of `_get_active_pods` raises
(the error is swallowed and the index set degrades to `[]`) while every other
orchestrator call succeeds. -/
def launchEnvBadListA : LaunchEnvA := ⟨true, false, ScaleRes.ok, true, true, stopEnvOkA, 0⟩

/-- A launch environment in which the service creation raises persistently and
the ingress read of the best-effort cleanup `stop` raises too. -/
def launchEnvSvcErrA : LaunchEnvA := ⟨true, true, ScaleRes.ok, false, true, stopEnvPatchErrA, 0⟩

/-- A variant B stop environment in which all three deletions raise. -/
def stopEnvAllErrB : StopEnvB := ⟨KRes.err, KRes.err, KRes.err⟩

/-- A variant B stop environment in which every deletion succeeds. -/
def stopEnvOkB : StopEnvB := ⟨KRes.ok, KRes.ok, KRes.ok⟩

/-- ASCII byte sequence of a Lean string (all strings involved in the frame
helpers are ASCII, where UTF-8 bytes and code points coincide). -/
def asciiBytes (s : String) : List Nat :=
  s.toList.map Char.toNat

/-- The base64 alphabet as ASCII codes: `A-Z`, `a-z`, `0-9`, `+`, `/`. -/
def b64table : List Nat :=
  (List.range 26).map (fun n => 65 + n) ++ (List.range 26).map (fun n => 97 + n) ++
    (List.range 10).map (fun n => 48 + n) ++ [43, 47]

/-- Character of a sextet (the table lookup of `base64.b64encode`). -/
def b64chr (s : Nat) : Nat := b64table.getD s 65

/-- Sextet of an alphabet character (the inverse lookup of `base64.b64decode`;
only ever applied to alphabet characters in the inputs reasoned about). -/
def b64idx (c : Nat) : Nat := (b64table.findIdx? (fun x => x == c)).getD 0

/-- `base64.b64encode` on a byte sequence: 3-byte groups become 4 alphabet
characters, a trailing group of 1 or 2 bytes is padded with `=` (ASCII 61). -/
def b64encode : List Nat → List Nat
  | [] => []
  | [a] => [b64chr (a / 4), b64chr (a % 4 * 16), 61, 61]
  | [a, b] => [b64chr (a / 4), b64chr (a % 4 * 16 + b / 16), b64chr (b % 16 * 4), 61]
  | a :: b :: c :: rest =>
    b64chr (a / 4) :: b64chr (a % 4 * 16 + b / 16) :: b64chr (b % 16 * 4 + c / 64) ::
      b64chr (c % 64) :: b64encode rest

/-- `base64.b64decode` on a well-formed encoding: 4 characters become 3 bytes,
with `=` padding cutting the last group to 1 or 2 bytes.  (On malformed input
the Python call raises; this total model is only ever applied to well-formed
encodings in the theorems below.) -/
def b64decode : List Nat → List Nat
  | c1 :: c2 :: c3 :: c4 :: rest =>
    if c3 = 61 then [b64idx c1 * 4 + b64idx c2 / 16]
    else if c4 = 61 then
      [b64idx c1 * 4 + b64idx c2 / 16, b64idx c2 % 16 * 16 + b64idx c3 / 4]
    else
      (b64idx c1 * 4 + b64idx c2 / 16) :: (b64idx c2 % 16 * 16 + b64idx c3 / 4) ::
        (b64idx c3 % 4 * 64 + b64idx c4) :: b64decode rest
  | _ => []

/-- A byte may appear verbatim inside a JSON string serialised by `json.dumps`
(printable ASCII, no quote, no backslash). -/
def jsonPlain (c : Nat) : Prop := c ≠ 34 ∧ c ≠ 92 ∧ 32 ≤ c ∧ c < 127

instance (c : Nat) : Decidable (jsonPlain c) := by
  unfold jsonPlain; infer_instance

/-- `json.dumps` on a flat string-valued dict with the default separators:
`\x7b"k1": "v1", "k2": "v2", ...\x7d` (34 = quote, 58 = colon, 32 = space,
44 = comma, 123/125 = braces). -/
def encMembers : List (List Nat × List Nat) → List Nat
  | [] => []
  | [(k, v)] => 34 :: (k ++ 34 :: 58 :: 32 :: 34 :: (v ++ [34, 125]))
  | (k, v) :: rest =>
    34 :: (k ++ 34 :: 58 :: 32 :: 34 :: (v ++ 34 :: 44 :: 32 :: encMembers rest))

/-- The full `json.dumps` output for a non-empty flat string-valued dict. -/
def encodeFlatObj (ms : List (List Nat × List Nat)) : List Nat :=
  123 :: encMembers ms

/-- String-body scanner of the JSON reader: consume up to the closing quote.
Escape sequences never occur in the documents reasoned about, so a backslash
is rejected rather than interpreted. -/
def scanStr : List Nat → Option (List Nat × List Nat)
  | [] => none
  | c :: rest =>
    if c = 34 then some ([], rest)
    else if c = 92 then none
    else
      match scanStr rest with
      | some (s, r) => some (c :: s, r)
      | none => none

/-- Member scanner of the JSON reader, for the canonical layout `json.dumps`
produces (`json.loads` accepts a superset; on these documents they agree).
Fuel is an artifact of the embedding. -/
def scanMembers : Nat → List Nat → Option (List (List Nat × List Nat) × List Nat)
  | 0, _ => none
  | f + 1, bs =>
    match bs with
    | [] => none
    | b0 :: bs1 =>
      if b0 = 34 then
        match scanStr bs1 with
        | none => none
        | some (k, bs2) =>
          match bs2 with
          | b2 :: b3 :: b4 :: bs3 =>
            if b2 = 58 ∧ b3 = 32 ∧ b4 = 34 then
              match scanStr bs3 with
              | none => none
              | some (v, bs4) =>
                match bs4 with
                | [] => none
                | c0 :: cs =>
                  if c0 = 44 then
                    match cs with
                    | [] => none
                    | c1 :: bs5 =>
                      if c1 = 32 then
                        match scanMembers f bs5 with
                        | some (ms, r) => some ((k, v) :: ms, r)
                        | none => none
                      else none
                  else if c0 = 125 then some ([(k, v)], cs)
                  else none
            else none
          | _ => none
      else none

/-- `json.loads` on a non-empty flat string-valued object in canonical layout:
the list of members, provided the whole input is consumed. -/
def readFlatObj (bs : List Nat) : Option (List (List Nat × List Nat)) :=
  match bs with
  | [] => none
  | b :: rest =>
    if b = 123 then
      match scanMembers (rest.length + 1) rest with
      | some (ms, []) => some ms
      | _ => none
    else none

/-- Python dict semantics for duplicate JSON keys: the last binding wins. -/
def dictLookup (ms : List (List Nat × List Nat)) (k : List Nat) : Option (List Nat) :=
  (ms.reverse.find? (fun p => p.1 == k)).map Prod.snd

/-- `struct.pack("<I", n)` for `n < 2^32`: 4 little-endian bytes. -/
def pack4le (n : Nat) : List Nat :=
  [n % 256, n / 256 % 256, n / 65536 % 256, n / 16777216 % 256]

/-- Key bytes of the SSM frame document. -/
def keySchema : List Nat := asciiBytes ("MessageSchemaVersion")

/-- Key bytes of the request-id field. -/
def keyRequestId : List Nat := asciiBytes ("RequestId")

/-- Key bytes of the channel field. -/
def keyChannel : List Nat := asciiBytes ("Channel")

/-- Key bytes of the payload field. -/
def keyPayload : List Nat := asciiBytes ("Payload")

/-- The JSON document built by `_wrap` (`lab_service.py` lines 32-40), with the
fresh `str(uuid.uuid4())` passed in as `rid` and the text already UTF-8
encoded as `t`. -/
def wrapDoc (rid t : List Nat) : List Nat :=
  encodeFlatObj
    [(keySchema, asciiBytes ("1.0")), (keyRequestId, rid),
     (keyChannel, asciiBytes ("stdin")), (keyPayload, b64encode t)]

/-- `_wrap` (`lab_service.py` lines 32-40): length-prefix the JSON document and
append the sentinel byte `b"\x00"`.  `struct.pack("<I", ...)` raises when the
length does not fit 32 bits, modelled by `none`. -/
def wrap (rid t : List Nat) : Option (List Nat) :=
  let raw := wrapDoc rid t
  if raw.length < 4294967296 then some (pack4le raw.length ++ raw ++ [0]) else none

/-- `_unwrap` (`lab_service.py` lines 43-46): `data[4:-1]` strips the length
prefix and the trailing sentinel, the JSON is read, and the `Payload` field is
base64-decoded.  A raise inside `json.loads`/key lookup is `none`. -/
def unwrap (data : List Nat) : Option (List Nat) :=
  match readFlatObj ((data.drop 4).dropLast) with
  | none => none
  | some ms =>
    match dictLookup ms keyPayload with
    | none => none
    | some p => some (b64decode p)

theorem getEntry_some_mem {α : Type} {m : List (String × α)} {k : String} {v : α}
    (h : getEntry m k = some v) : (k, v) ∈ m := by
  induction m with
  | nil => simp [getEntry] at h
  | cons p m ih =>
    by_cases hp : p.1 = k
    · rw [show getEntry (p :: m) k = if p.1 = k then some p.2 else getEntry m k from rfl,
        if_pos hp] at h
      injection h with h2
      have hpkv : p = (k, v) := Prod.ext hp h2
      rw [← hpkv]
      exact List.mem_cons_self p m
    · rw [show getEntry (p :: m) k = if p.1 = k then some p.2 else getEntry m k from rfl,
        if_neg hp] at h
      exact List.mem_cons_of_mem _ (ih h)

theorem getEntry_eq_none {α : Type} {m : List (String × α)} {k : String} :
    getEntry m k = none ↔ k ∉ m.map Prod.fst := by
  induction m with
  | nil => simp [getEntry]
  | cons p m ih =>
    by_cases hp : p.1 = k
    · simp [getEntry, hp]
    · simp [getEntry, hp, ih, Ne.symm hp]

theorem mem_eraseEntry {α : Type} {m : List (String × α)} {k : String} {p : String × α} :
    p ∈ eraseEntry m k ↔ p ∈ m ∧ p.1 ≠ k := by
  simp [eraseEntry, List.mem_filter, bne_iff_ne]

theorem eraseEntry_sublist {α : Type} (m : List (String × α)) (k : String) :
    List.Sublist (eraseEntry m k) m :=
  List.filter_sublist m

theorem keys_eraseEntry_not_mem {α : Type} (m : List (String × α)) (k : String) :
    k ∉ (eraseEntry m k).map Prod.fst := by
  intro h
  obtain ⟨p, hp, hk⟩ := List.mem_map.mp h
  exact (mem_eraseEntry.mp hp).2 hk

theorem getEntry_eraseEntry_self {α : Type} (m : List (String × α)) (k : String) :
    getEntry (eraseEntry m k) k = none :=
  getEntry_eq_none.mpr (keys_eraseEntry_not_mem m k)

theorem eraseEntry_eq_self {α : Type} {m : List (String × α)} {k : String}
    (h : k ∉ m.map Prod.fst) : eraseEntry m k = m := by
  induction m with
  | nil => rfl
  | cons p m ih =>
    simp only [List.map_cons, List.mem_cons] at h
    push_neg at h
    simpa [eraseEntry, List.filter_cons, bne_iff_ne, Ne.symm h.1] using ih h.2

theorem getEntry_setEntry_self {α : Type} (m : List (String × α)) (k : String) (v : α) :
    getEntry (setEntry m k v) k = some v := by
  simp [setEntry, getEntry]

theorem vals_eraseEntry_subset {α : Type} (m : List (String × α)) (k : String) :
    ∀ v, v ∈ (eraseEntry m k).map Prod.snd → v ∈ m.map Prod.snd := by
  intro v hv
  obtain ⟨p, hp, hveq⟩ := List.mem_map.mp hv
  exact List.mem_map.mpr ⟨p, (mem_eraseEntry.mp hp).1, hveq⟩

theorem val_not_mem_eraseEntry {α : Type} {m : List (String × α)} {k : String} {v : α}
    (hmem : (k, v) ∈ m) (hkeys : (m.map Prod.fst).Nodup)
    (hvals : (m.map Prod.snd).Nodup) : v ∉ (eraseEntry m k).map Prod.snd := by
  induction m with
  | nil => cases hmem
  | cons p m ih =>
    simp only [List.map_cons, List.nodup_cons] at hkeys hvals
    rcases List.mem_cons.mp hmem with heq | htail
    · have hpk : p.1 = k := by rw [← heq]
      have hpv : p.2 = v := by rw [← heq]
      have herase : eraseEntry (p :: m) k = eraseEntry m k := by
        simp [eraseEntry, List.filter_cons, bne_iff_ne, hpk]
      rw [herase]
      intro hv
      exact (hpv ▸ hvals.1) (vals_eraseEntry_subset m k v hv)
    · have hpk : p.1 ≠ k := by
        intro hpk
        exact hkeys.1 (List.mem_map.mpr ⟨(k, v), htail, hpk.symm⟩)
      have herase : eraseEntry (p :: m) k = p :: eraseEntry m k := by
        simp [eraseEntry, List.filter_cons, bne_iff_ne, hpk]
      rw [herase]
      simp only [List.map_cons, List.mem_cons]
      push_neg
      constructor
      · intro hveq
        exact hvals.1 (hveq ▸ List.mem_map.mpr ⟨(k, v), htail, rfl⟩)
      · exact ih htail hkeys.2 hvals.2

theorem smallestFreeGo_spec (l : List Nat) :
    ∀ f i, (∀ x ∈ l, x < i + f) →
      smallestFreeGo l f i ∉ l ∧ ∀ j, i ≤ j → j < smallestFreeGo l f i → j ∈ l := by
  intro f
  induction f with
  | zero =>
    intro i h
    have hz : smallestFreeGo l 0 i = i := rfl
    rw [hz]
    exact ⟨fun hmem => absurd (h _ hmem) (by omega), fun j hj hj2 => absurd hj (by omega)⟩
  | succ f ih =>
    intro i h
    have hstep : smallestFreeGo l (f + 1) i =
        if i ∈ l then smallestFreeGo l f (i + 1) else i := rfl
    rw [hstep]
    by_cases hi : i ∈ l
    · rw [if_pos hi]
      obtain ⟨h1, h2⟩ := ih (i + 1) (by intro x hx; have := h x hx; omega)
      refine ⟨h1, fun j hj hj2 => ?_⟩
      rcases Nat.eq_or_lt_of_le hj with rfl | hlt
      · exact hi
      · exact h2 j (by omega) hj2
    · rw [if_neg hi]
      exact ⟨hi, fun j hj hj2 => absurd hj (by omega)⟩

theorem smallestFree_spec (l : List Nat) :
    smallestFree l ∉ l ∧ ∀ j, j < smallestFree l → j ∈ l := by
  have hfuel : ∀ x ∈ l, x < 0 + l.foldr (fun x m => max (x + 1) m) 0 := by
    intro x hx
    induction l with
    | nil => cases hx
    | cons a l ih =>
      rcases List.mem_cons.mp hx with rfl | hx2
      · simp only [List.foldr]
        omega
      · have := ih hx2
        simp only [List.foldr] at *
        omega
  obtain ⟨h1, h2⟩ := smallestFreeGo_spec l _ 0 hfuel
  exact ⟨h1, fun j hj => h2 j (Nat.zero_le j) hj⟩

theorem smallestFree_range (n : Nat) : smallestFree (List.range n) = n := by
  obtain ⟨h1, h2⟩ := smallestFree_spec (List.range n)
  simp only [List.mem_range] at h1 h2
  by_cases h : smallestFree (List.range n) = n
  · exact h
  · push_neg at h1
    have := h2 n (by omega)
    omega

theorem le_maxIdxInt {m : List (String × Nat)} {p : String × Nat} (h : p ∈ m) :
    (p.2 : Int) ≤ maxIdxInt m := by
  induction m with
  | nil => cases h
  | cons q m ih =>
    rcases List.mem_cons.mp h with rfl | h2
    · simp only [maxIdxInt, List.foldr]
      exact le_max_left _ _
    · calc (p.2 : Int) ≤ maxIdxInt m := ih h2
        _ ≤ maxIdxInt (q :: m) := le_max_right _ _

theorem maxIdxInt_lt {m : List (String × Nat)} {n : Nat} (h : ∀ p ∈ m, p.2 < n) :
    maxIdxInt m < (n : Int) := by
  induction m with
  | nil =>
    simp only [maxIdxInt, List.foldr]
    omega
  | cons q m ih =>
    have hq : ((q.2 : Nat) : Int) < (n : Int) := by exact_mod_cast h q (List.mem_cons_self q m)
    have hm : maxIdxInt m < (n : Int) := ih (fun p hp => h p (List.mem_cons_of_mem q hp))
    simpa only [maxIdxInt, List.foldr, max_lt_iff] using ⟨hq, hm⟩

theorem scaleA_fail_ge {current target : Nat} {res : ScaleRes}
    (h : (scaleA current target res).2 = false) : current ≤ (scaleA current target res).1 := by
  unfold scaleA at h ⊢
  by_cases h1 : current = target
  · rw [if_pos h1] at h
    simp at h
  · rw [if_neg h1] at h ⊢
    by_cases h2 : current < target
    · rw [if_pos h2] at h ⊢
      cases res
      · simp at h
      · simp
      · simp
        omega
    · rw [if_neg h2] at h ⊢
      cases res
      · simp at h
      · simp
      · simp

theorem scaleA_ok_eq {current target : Nat} {res : ScaleRes}
    (h : (scaleA current target res).2 = true) : (scaleA current target res).1 = target := by
  unfold scaleA at h ⊢
  by_cases h1 : current = target
  · rw [if_pos h1]
    exact h1
  · rw [if_neg h1] at h ⊢
    by_cases h2 : current < target
    · rw [if_pos h2] at h ⊢
      cases res <;> simp_all
    · rw [if_neg h2] at h ⊢
      cases res <;> simp_all

theorem val_ge_not_mem {m : List (String × Nat)} {n : Nat} (hb : ∀ p ∈ m, p.2 < n) :
    n ∉ m.map Prod.snd := by
  intro h
  obtain ⟨p, hp, he⟩ := List.mem_map.mp h
  have := hb p hp
  omega

theorem invA_bump {s : LabStateA} {r : Nat} (hs : InvA s) (hr : s.replicas ≤ r) :
    InvA ⟨s.active, s.created, r⟩ :=
  ⟨hs.1, hs.2.1, fun p hp => lt_of_lt_of_le (hs.2.2 p hp) hr⟩

theorem scaleA_up_ok (c : Nat) : scaleA c (c + 1) ScaleRes.ok = (c + 1, true) := by
  unfold scaleA
  rw [if_neg (by omega), if_pos (by omega)]

theorem scaleA_up_errBefore (c : Nat) : scaleA c (c + 1) ScaleRes.errBefore = (c, false) := by
  unfold scaleA
  rw [if_neg (by omega), if_pos (by omega)]

theorem scaleA_up_errAfter (c : Nat) : scaleA c (c + 1) ScaleRes.errAfter = (c + 1, false) := by
  unfold scaleA
  rw [if_neg (by omega), if_pos (by omega)]

theorem stopA_none {s : LabStateA} {env : StopEnvA} {labId : String}
    (hget : getEntry s.active labId = none) : stopA s env labId = ⟨s, false, []⟩ := by
  unfold stopA
  rw [hget]

theorem stopA_some {s : LabStateA} {env : StopEnvA} {labId : String} {idx : Nat}
    (hget : getEntry s.active labId = some idx) :
    stopA s env labId =
      if env.patchIngress = false then
        ⟨⟨setEntry (eraseEntry s.active labId) labId idx, eraseEntry s.created labId, s.replicas⟩,
          false, ["patch_ingress"]⟩
      else if env.deleteSvc = KRes.err then
        ⟨⟨setEntry (eraseEntry s.active labId) labId idx, eraseEntry s.created labId, s.replicas⟩,
          false, ["patch_ingress", "delete_service"]⟩
      else if (idx : Int) > maxIdxInt (eraseEntry s.active labId) then
        if (scaleA s.replicas (maxIdxInt (eraseEntry s.active labId) + 1).toNat env.scale).2 then
          ⟨⟨eraseEntry s.active labId, eraseEntry s.created labId,
              (scaleA s.replicas (maxIdxInt (eraseEntry s.active labId) + 1).toNat env.scale).1⟩,
            true, ["patch_ingress", "delete_service", "scale"]⟩
        else
          ⟨⟨setEntry (eraseEntry s.active labId) labId idx, eraseEntry s.created labId,
              (scaleA s.replicas (maxIdxInt (eraseEntry s.active labId) + 1).toNat env.scale).1⟩,
            false, ["patch_ingress", "delete_service", "scale"]⟩
      else
        ⟨⟨eraseEntry s.active labId, eraseEntry s.created labId, s.replicas⟩, true,
          ["patch_ingress", "delete_service"]⟩ := by
  unfold stopA
  rw [hget]

theorem stopA_inv {s : LabStateA} {env : StopEnvA} {labId : String}
    (hs : InvA s) : InvA (stopA s env labId).state := by
  obtain ⟨hk, hv, hb⟩ := hs
  cases hget : getEntry s.active labId with
  | none =>
    rw [stopA_none hget]
    exact ⟨hk, hv, hb⟩
  | some idx =>
    have hmem : (labId, idx) ∈ s.active := getEntry_some_mem hget
    have hk1 : ((eraseEntry s.active labId).map Prod.fst).Nodup :=
      hk.sublist ((eraseEntry_sublist s.active labId).map Prod.fst)
    have hv1 : ((eraseEntry s.active labId).map Prod.snd).Nodup :=
      hv.sublist ((eraseEntry_sublist s.active labId).map Prod.snd)
    have hknot : labId ∉ (eraseEntry s.active labId).map Prod.fst :=
      keys_eraseEntry_not_mem s.active labId
    have hvnot : idx ∉ (eraseEntry s.active labId).map Prod.snd :=
      val_not_mem_eraseEntry hmem hk hv
    have hb1 : ∀ p ∈ eraseEntry s.active labId, p.2 < s.replicas :=
      fun p hp => hb p (mem_eraseEntry.mp hp).1
    have hidx : idx < s.replicas := hb (labId, idx) hmem
    have he : eraseEntry (eraseEntry s.active labId) labId = eraseEntry s.active labId :=
      eraseEntry_eq_self hknot
    have hrest : ∀ r : Nat, s.replicas ≤ r →
        InvA ⟨setEntry (eraseEntry s.active labId) labId idx,
          eraseEntry s.created labId, r⟩ := by
      intro r hr
      refine ⟨?_, ?_, ?_⟩
      · simp only [setEntry, he, List.map_cons, List.nodup_cons]
        exact ⟨hknot, hk1⟩
      · simp only [setEntry, he, List.map_cons, List.nodup_cons]
        exact ⟨hvnot, hv1⟩
      · intro p hp
        simp only [setEntry, he, List.mem_cons] at hp
        rcases hp with rfl | hp
        · simp only []
          omega
        · exact lt_of_lt_of_le (hb1 p hp) hr
    have hkeep : ∀ r : Nat, s.replicas ≤ r →
        InvA ⟨eraseEntry s.active labId, eraseEntry s.created labId, r⟩ :=
      fun r hr => ⟨hk1, hv1, fun p hp => lt_of_lt_of_le (hb1 p hp) hr⟩
    rw [stopA_some hget]
    by_cases h1 : env.patchIngress = false
    · rw [if_pos h1]
      exact hrest s.replicas le_rfl
    · rw [if_neg h1]
      by_cases h2 : env.deleteSvc = KRes.err
      · rw [if_pos h2]
        exact hrest s.replicas le_rfl
      · rw [if_neg h2]
        by_cases h3 : (idx : Int) > maxIdxInt (eraseEntry s.active labId)
        · rw [if_pos h3]
          by_cases h4 :
              (scaleA s.replicas (maxIdxInt (eraseEntry s.active labId) + 1).toNat env.scale).2
          · rw [if_pos h4]
            refine ⟨hk1, hv1, ?_⟩
            intro p hp
            have hple : (p.2 : Int) ≤ maxIdxInt (eraseEntry s.active labId) := le_maxIdxInt hp
            show p.2 <
              (scaleA s.replicas (maxIdxInt (eraseEntry s.active labId) + 1).toNat env.scale).1
            rw [scaleA_ok_eq h4]
            omega
          · rw [if_neg h4]
            exact hrest _ (scaleA_fail_ge (by simpa using h4))
        · rw [if_neg h3]
          exact hkeep s.replicas le_rfl

theorem launchA_inv {s : LabStateA} {env : LaunchEnvA} {tag : String}
    (hs : InvA s) (hlist : env.listOk = true) : InvA (launchA s env tag).state := by
  obtain ⟨hk, hv, hb⟩ := hs
  have hidx : launchIdx s env = s.replicas := by
    unfold launchIdx launchPods
    rw [hlist]
    simpa using smallestFree_range s.replicas
  have hcond : (launchIdx s env : Int) > maxIdxInt s.active := by
    rw [hidx]
    exact maxIdxInt_lt hb
  unfold launchA
  by_cases h0 : env.ensureSts = false
  · rw [if_pos h0]
    exact stopA_inv ⟨hk, hv, hb⟩
  · rw [if_neg h0]
    cases hres : env.scale with
    | ok =>
      have hsc : launchScaled s env = (⟨s.active, s.created, s.replicas + 1⟩, true) := by
        unfold launchScaled
        rw [if_pos hcond, hidx, hres, scaleA_up_ok]
      rw [hsc]
      have hbump : InvA ⟨s.active, s.created, s.replicas + 1⟩ :=
        invA_bump ⟨hk, hv, hb⟩ (by omega)
      by_cases h1 : env.createSvc = false
      · rw [if_neg (by simp), if_pos h1]
        exact stopA_inv hbump
      · rw [if_neg (by simp), if_neg h1]
        by_cases h2 : env.patchIngress = false
        · rw [if_pos h2]
          exact stopA_inv hbump
        · rw [if_neg h2]
          show InvA ⟨setEntry s.active tag (launchIdx s env), setEntry s.created tag env.now,
            s.replicas + 1⟩
          refine ⟨?_, ?_, ?_⟩
          · simp only [setEntry, List.map_cons, List.nodup_cons]
            exact ⟨keys_eraseEntry_not_mem s.active tag,
              hk.sublist ((eraseEntry_sublist s.active tag).map Prod.fst)⟩
          · simp only [setEntry, List.map_cons, List.nodup_cons]
            refine ⟨?_, hv.sublist ((eraseEntry_sublist s.active tag).map Prod.snd)⟩
            rw [hidx]
            intro hmem
            exact val_ge_not_mem hb (vals_eraseEntry_subset s.active tag s.replicas hmem)
          · intro p hp
            simp only [setEntry, List.mem_cons] at hp
            rcases hp with rfl | hp
            · show launchIdx s env < s.replicas + 1
              rw [hidx]
              omega
            · show p.2 < s.replicas + 1
              have := hb p (mem_eraseEntry.mp hp).1
              omega
    | errBefore =>
      have hsc : launchScaled s env = (s, false) := by
        unfold launchScaled
        rw [if_pos hcond, hidx, hres, scaleA_up_errBefore]
      rw [hsc]
      rw [if_pos rfl]
      exact stopA_inv ⟨hk, hv, hb⟩
    | errAfter =>
      have hsc : launchScaled s env = (⟨s.active, s.created, s.replicas + 1⟩, false) := by
        unfold launchScaled
        rw [if_pos hcond, hidx, hres, scaleA_up_errAfter]
      rw [hsc]
      rw [if_pos rfl]
      exact stopA_inv (invA_bump ⟨hk, hv, hb⟩ (by omega))

theorem runA_inv (ops : List OpA) : ∀ s : LabStateA, InvA s →
    (∀ op ∈ ops, listingOk op = true) → InvA (runA s ops) := by
  induction ops with
  | nil =>
    intro s hs _
    exact hs
  | cons op ops ih =>
    intro s hs h
    have hop := h op (List.mem_cons_self op ops)
    unfold runA
    apply ih _ _ (fun o ho => h o (List.mem_cons_of_mem op ho))
    cases op with
    | launch tag env =>
      simp only [stepA]
      exact launchA_inv hs (by simpa [listingOk] using hop)
    | stop labId env =>
      simp only [stepA]
      exact stopA_inv hs

theorem invA_initA : InvA initA :=
  ⟨List.nodup_nil, List.nodup_nil, fun p hp => absurd hp (List.not_mem_nil p)⟩

theorem stopA_spec {s : LabStateA} {env : StopEnvA} {l : String} {idx : Nat}
    (hget : getEntry s.active l = some idx) :
    (stopA s env l).state.created = eraseEntry s.created l ∧
    ((stopA s env l).ret = true → (stopA s env l).state.active = eraseEntry s.active l) ∧
    ((stopA s env l).ret = false →
      (stopA s env l).state.active = setEntry (eraseEntry s.active l) l idx) := by
  rw [stopA_some hget]
  by_cases h1 : env.patchIngress = false
  · rw [if_pos h1]
    exact ⟨rfl, by simp, fun _ => rfl⟩
  · rw [if_neg h1]
    by_cases h2 : env.deleteSvc = KRes.err
    · rw [if_pos h2]
      exact ⟨rfl, by simp, fun _ => rfl⟩
    · rw [if_neg h2]
      by_cases h3 : (idx : Int) > maxIdxInt (eraseEntry s.active l)
      · rw [if_pos h3]
        by_cases h4 :
            (scaleA s.replicas (maxIdxInt (eraseEntry s.active l) + 1).toNat env.scale).2
        · rw [if_pos h4]
          exact ⟨rfl, fun _ => rfl, by simp⟩
        · rw [if_neg h4]
          exact ⟨rfl, by simp, fun _ => rfl⟩
      · rw [if_neg h3]
        exact ⟨rfl, fun _ => rfl, by simp⟩

theorem stopB_none {s : LabStateB} {env : StopEnvB} {l : String}
    (hget : getEntry s.active l = none) : stopB s env l = ⟨s, false, []⟩ := by
  unfold stopB
  rw [hget]

theorem stopB_some {s : LabStateB} {env : StopEnvB} {l : String} {pn : String}
    (hget : getEntry s.active l = some pn) :
    stopB s env l = ⟨⟨eraseEntry s.active l, eraseEntry s.created l⟩,
      decide (env.patchIngress ≠ KRes.err ∧ env.deleteSvc ≠ KRes.err ∧
        env.deletePod ≠ KRes.err),
      ["patch_ingress", "delete_service", "delete_pod"]⟩ := by
  unfold stopB
  rw [hget]

theorem launchScaled_active (s : LabStateA) (env : LaunchEnvA) :
    (launchScaled s env).1.active = s.active := by
  unfold launchScaled
  by_cases h : (launchIdx s env : Int) > maxIdxInt s.active
  · rw [if_pos h]
  · rw [if_neg h]

theorem launchScaled_created (s : LabStateA) (env : LaunchEnvA) :
    (launchScaled s env).1.created = s.created := by
  unfold launchScaled
  by_cases h : (launchIdx s env : Int) > maxIdxInt s.active
  · rw [if_pos h]
  · rw [if_neg h]

theorem launchA_fail_fresh {s : LabStateA} {env : LaunchEnvA} {tag : String}
    (hfresh : getEntry s.active tag = none) (hfail : (launchA s env tag).ok = false) :
    (launchA s env tag).state.active = s.active ∧
    (launchA s env tag).state.created = s.created := by
  unfold launchA at hfail ⊢
  by_cases h0 : env.ensureSts = false
  · rw [if_pos h0]
    rw [stopA_none hfresh]
    exact ⟨rfl, rfl⟩
  · rw [if_neg h0] at hfail ⊢
    have hfr2 : getEntry (launchScaled s env).1.active tag = none := by
      rw [launchScaled_active]
      exact hfresh
    by_cases hA : (launchScaled s env).2 = false
    · rw [if_pos hA]
      rw [stopA_none hfr2]
      exact ⟨launchScaled_active s env, launchScaled_created s env⟩
    · rw [if_neg hA] at hfail ⊢
      by_cases hB : env.createSvc = false
      · rw [if_pos hB]
        rw [stopA_none hfr2]
        exact ⟨launchScaled_active s env, launchScaled_created s env⟩
      · rw [if_neg hB] at hfail ⊢
        by_cases hC : env.patchIngress = false
        · rw [if_pos hC]
          rw [stopA_none hfr2]
          exact ⟨launchScaled_active s env, launchScaled_created s env⟩
        · rw [if_neg hC] at hfail
          simp at hfail

theorem launchB_fail_fresh {s : LabStateB} {env : LaunchEnvB} {tag : String}
    (hfresh : getEntry s.active tag = none) (hfail : (launchB s env tag).ok = false) :
    (launchB s env tag).state.active = s.active ∧
    (launchB s env tag).state.created = s.created := by
  unfold launchB at hfail ⊢
  by_cases h0 : env.createPod = false
  · rw [if_pos h0]
    rw [stopB_none hfresh]
    exact ⟨rfl, rfl⟩
  · rw [if_neg h0] at hfail ⊢
    by_cases h1 : env.createSvc = false
    · rw [if_pos h1]
      rw [stopB_none hfresh]
      exact ⟨rfl, rfl⟩
    · rw [if_neg h1] at hfail ⊢
      by_cases h2 : env.patchIngress = false
      · rw [if_pos h2]
        rw [stopB_none hfresh]
        exact ⟨rfl, rfl⟩
      · rw [if_neg h2] at hfail
        simp at hfail

theorem timeLeft_none {created : List (String × Int)} {ttl : Int} {l : String} {now : Int}
    (h : getEntry created l = none) : timeLeft created ttl l now = none := by
  unfold timeLeft
  rw [h]

theorem timeLeft_some {created : List (String × Int)} {ttl : Int} {l : String} {now ts : Int}
    (h : getEntry created l = some ts) :
    timeLeft created ttl l now =
      some ⟨(ttl - (now - ts)).toNat / 60, (ttl - (now - ts)).toNat % 60,
        (ttl - (now - ts)).toNat⟩ := by
  unfold timeLeft
  rw [h]

theorem getLabInfoA_some {s : LabStateA} {ttl : Int} {l : String} {now : Int} {idx : Nat}
    (h : getEntry s.active l = some idx) :
    getLabInfoA s ttl l now = some ⟨l, labHost l, idx, timeLeft s.created ttl l now⟩ := by
  unfold getLabInfoA
  rw [h]

theorem mem_expiredLabs {created : List (String × Int)} {ttl now : Int} {l : String} :
    l ∈ expiredLabs created ttl now ↔ ∃ c : Int, (l, c) ∈ created ∧ now - c > ttl := by
  unfold expiredLabs
  constructor
  · intro h
    obtain ⟨p, hp, he⟩ := List.mem_map.mp h
    obtain ⟨hpm, hpc⟩ := List.mem_filter.mp hp
    exact ⟨p.2, by rw [← he]; exact hpm, of_decide_eq_true hpc⟩
  · intro ⟨c, hc, hgt⟩
    exact List.mem_map.mpr ⟨(l, c), List.mem_filter.mpr ⟨hc, decide_eq_true hgt⟩, rfl⟩

theorem not_mem_expired_erased (created : List (String × Int)) (ttl now : Int) (l : String) :
    l ∉ expiredLabs (eraseEntry created l) ttl now := by
  intro h
  obtain ⟨c, hc, _⟩ := mem_expiredLabs.mp h
  exact (mem_eraseEntry.mp hc).2 rfl

theorem filter_self_of_kept (rs : List IngressRule) (h : String) :
    (rs.filter (fun r => r.host != h)).filter (fun r => r.host == h) = [] := by
  induction rs with
  | nil => rfl
  | cons r rs ih =>
    by_cases hr : r.host = h
    · simp [List.filter_cons, hr, ih]
    · simp [List.filter_cons, hr, ih]

theorem filter_other_of_kept (rs : List IngressRule) (target h' : String) (hne : h' ≠ target) :
    (rs.filter (fun r => r.host != target)).filter (fun r => r.host == h') =
      rs.filter (fun r => r.host == h') := by
  induction rs with
  | nil => rfl
  | cons r rs ih =>
    by_cases hr : r.host = target
    · simp [List.filter_cons, hr, Ne.symm hne, ih]
    · by_cases hr2 : r.host = h'
      · simp [List.filter_cons, hr, hr2, hne, ih]
      · simp [List.filter_cons, hr, hr2, ih]

/-- C1, counterexample: in the pod-per-lab variant, for a registered lab whose
three deletions all raise persistently, `stop` returns `False` and both
registry entries are nevertheless gone — so the entry is removed before the
deletions complete, not "only after", and is gone even though they failed. -/
theorem claim_C1_counterexample :
    (stopB ⟨[("lab-1", "lab-lab-1")], [("lab-1", 100)]⟩ stopEnvAllErrB ("lab-1")).ret = false ∧
    getEntry (stopB ⟨[("lab-1", "lab-lab-1")], [("lab-1", 100)]⟩ stopEnvAllErrB
      ("lab-1")).state.active ("lab-1") = none ∧
    getEntry (stopB ⟨[("lab-1", "lab-lab-1")], [("lab-1", 100)]⟩ stopEnvAllErrB
      ("lab-1")).state.created ("lab-1") = none := by
  decide

/-- C1, amended: for every registered lab, `stop` removes both registry entries
up front, before the deletions run.  In the pod-per-lab variant both entries
stay gone whether the deletions succeed or fail; in the StatefulSet variant the
`created_at` entry is always gone afterwards, while the active entry is gone
exactly when every cleanup step completed and is restored when one failed. -/
theorem claim_C1_registry_removal (sB : LabStateB) (envB : StopEnvB)
    (sA : LabStateA) (envA : StopEnvA) (l pn : String) (idx : Nat)
    (hB : getEntry sB.active l = some pn) (hA : getEntry sA.active l = some idx) :
    (getEntry (stopB sB envB l).state.active l = none ∧
      getEntry (stopB sB envB l).state.created l = none) ∧
    getEntry (stopA sA envA l).state.created l = none ∧
    ((stopA sA envA l).ret = true → getEntry (stopA sA envA l).state.active l = none) ∧
    ((stopA sA envA l).ret = false → getEntry (stopA sA envA l).state.active l = some idx) := by
  obtain ⟨hc, ht, hf⟩ := @stopA_spec sA envA l idx hA
  refine ⟨?_, ?_, ?_, ?_⟩
  · rw [stopB_some hB]
    exact ⟨getEntry_eraseEntry_self _ _, getEntry_eraseEntry_self _ _⟩
  · rw [hc]
    exact getEntry_eraseEntry_self _ _
  · intro h
    rw [ht h]
    exact getEntry_eraseEntry_self _ _
  · intro h
    rw [hf h]
    exact getEntry_setEntry_self _ _ _

theorem claim_C1_registry_removal_witness :
    (getEntry (stopB ⟨[("w1", "lab-w1")], [("w1", 5)]⟩ stopEnvOkB ("w1")).state.active
        ("w1") = none ∧
      getEntry (stopB ⟨[("w1", "lab-w1")], [("w1", 5)]⟩ stopEnvOkB ("w1")).state.created
        ("w1") = none) ∧
    getEntry (stopA ⟨[("w1", 0)], [("w1", 7)], 1⟩ stopEnvOkA ("w1")).state.created
      ("w1") = none ∧
    ((stopA ⟨[("w1", 0)], [("w1", 7)], 1⟩ stopEnvOkA ("w1")).ret = true →
      getEntry (stopA ⟨[("w1", 0)], [("w1", 7)], 1⟩ stopEnvOkA ("w1")).state.active
        ("w1") = none) ∧
    ((stopA ⟨[("w1", 0)], [("w1", 7)], 1⟩ stopEnvOkA ("w1")).ret = false →
      getEntry (stopA ⟨[("w1", 0)], [("w1", 7)], 1⟩ stopEnvOkA ("w1")).state.active
        ("w1") = some 0) :=
  claim_C1_registry_removal ⟨[("w1", "lab-w1")], [("w1", 5)]⟩ stopEnvOkB
    ⟨[("w1", 0)], [("w1", 7)], 1⟩ stopEnvOkA ("w1") ("lab-w1") 0 (by decide) (by decide)

/-- C2, counterexample: launching with a tag equal to an already-registered lab
id, failing at service creation, runs the best-effort cleanup `stop`, whose own
ingress failure restores the active entry — so the failed launch returns with
the registry still holding an entry for that lab id. -/
theorem claim_C2_counterexample :
    (launchA ⟨[("lab-1", 0)], [("lab-1", 100)], 1⟩ launchEnvSvcErrA ("lab-1")).ok = false ∧
    getEntry (launchA ⟨[("lab-1", 0)], [("lab-1", 100)], 1⟩ launchEnvSvcErrA
      ("lab-1")).state.active ("lab-1") = some 0 := by
  decide

/-- C2, amended: when `launch` fails after the lab id is determined, it runs a
best-effort `stop(lab_id)` and fails the call; provided that lab id was not
already registered when the call began (no active and no created entry), the
registry holds no entry for it after the failed call — in both variants. -/
theorem claim_C2_failed_launch_clean (sA : LabStateA) (envA : LaunchEnvA)
    (sB : LabStateB) (envB : LaunchEnvB) (tag : String) :
    (getEntry sA.active tag = none → getEntry sA.created tag = none →
      (launchA sA envA tag).ok = false →
      getEntry (launchA sA envA tag).state.active tag = none ∧
      getEntry (launchA sA envA tag).state.created tag = none) ∧
    (getEntry sB.active tag = none → getEntry sB.created tag = none →
      (launchB sB envB tag).ok = false →
      getEntry (launchB sB envB tag).state.active tag = none ∧
      getEntry (launchB sB envB tag).state.created tag = none) := by
  constructor
  · intro h1 h2 hfail
    obtain ⟨ha, hc⟩ := launchA_fail_fresh h1 hfail
    rw [ha, hc]
    exact ⟨h1, h2⟩
  · intro h1 h2 hfail
    obtain ⟨ha, hc⟩ := launchB_fail_fresh h1 hfail
    rw [ha, hc]
    exact ⟨h1, h2⟩

theorem claim_C2_failed_launch_clean_witness :
    getEntry (launchA initA launchEnvSvcErrA ("w2")).state.active ("w2") = none ∧
    getEntry (launchA initA launchEnvSvcErrA ("w2")).state.created ("w2") = none :=
  (claim_C2_failed_launch_clean initA launchEnvSvcErrA ⟨[], []⟩
    ⟨true, true, true, stopEnvOkB, 0⟩ ("w2")).1 (by decide) (by decide) (by decide)

/-- C3, counterexample: two sequential launches, the second of which suffers a
(swallowed) pod-listing failure inside `_get_active_pods`, register two
distinct labs on the same replica index 0 — two simultaneously active labs
share a `compute_ref`. -/
theorem claim_C3_counterexample :
    ¬ ((runA initA
        [OpA.launch ("a") launchEnvOkA, OpA.launch ("b") launchEnvBadListA]).active.map
          Prod.snd).Nodup := by
  decide

/-- C3, amended: starting from the freshly initialised StatefulSet backend,
after any sequence of `launch`/`stop` calls, each run to completion in order
and with every pod listing succeeding, the replica indices (`compute_ref`s) of
the simultaneously registered labs are pairwise distinct. -/
theorem claim_C3_compute_ref_disjoint (ops : List OpA)
    (h : ∀ op ∈ ops, listingOk op = true) :
    ((runA initA ops).active.map Prod.snd).Nodup :=
  (runA_inv ops initA invA_initA h).2.1

theorem claim_C3_compute_ref_disjoint_witness :
    (∀ op ∈ [OpA.launch ("a") launchEnvOkA, OpA.launch ("b") launchEnvOkA,
      OpA.stop ("a") stopEnvOkA], listingOk op = true) ∧
    ((runA initA [OpA.launch ("a") launchEnvOkA, OpA.launch ("b") launchEnvOkA,
      OpA.stop ("a") stopEnvOkA]).active.map Prod.snd).Nodup :=
  ⟨by decide, claim_C3_compute_ref_disjoint _ (by decide)⟩

/-- C4: `stop` on a lab id unknown to the registry returns `False` immediately,
performs no orchestrator call and leaves the state unchanged, in both
variants; and right after a successful `stop`, a second `stop` of the same lab
is exactly such a no-op returning `False`. -/
theorem claim_C4_stop_idempotent (sA : LabStateA) (envA envA2 : StopEnvA)
    (sB : LabStateB) (envB envB2 : StopEnvB) (l : String) :
    (getEntry sA.active l = none → stopA sA envA l = ⟨sA, false, []⟩) ∧
    (getEntry sB.active l = none → stopB sB envB l = ⟨sB, false, []⟩) ∧
    ((stopA sA envA l).ret = true →
      stopA (stopA sA envA l).state envA2 l = ⟨(stopA sA envA l).state, false, []⟩) ∧
    ((stopB sB envB l).ret = true →
      stopB (stopB sB envB l).state envB2 l = ⟨(stopB sB envB l).state, false, []⟩) := by
  refine ⟨stopA_none, stopB_none, ?_, ?_⟩
  · intro hret
    cases hget : getEntry sA.active l with
    | none =>
      rw [stopA_none hget] at hret
      simp at hret
    | some idx =>
      obtain ⟨hc, ht, hf⟩ := @stopA_spec sA envA l idx hget
      apply stopA_none
      rw [ht hret]
      exact getEntry_eraseEntry_self _ _
  · intro hret
    cases hget : getEntry sB.active l with
    | none =>
      rw [stopB_none hget] at hret
      simp at hret
    | some pn =>
      apply stopB_none
      rw [stopB_some hget]
      exact getEntry_eraseEntry_self _ _

theorem claim_C4_stop_idempotent_witness :
    stopA ⟨[], [], 0⟩ stopEnvOkA ("w3") = ⟨⟨[], [], 0⟩, false, []⟩ ∧
    stopA (stopA ⟨[("w3", 0)], [("w3", 1)], 1⟩ stopEnvOkA ("w3")).state stopEnvOkA ("w3") =
      ⟨(stopA ⟨[("w3", 0)], [("w3", 1)], 1⟩ stopEnvOkA ("w3")).state, false, []⟩ :=
  ⟨(claim_C4_stop_idempotent ⟨[], [], 0⟩ stopEnvOkA stopEnvOkA ⟨[], []⟩ stopEnvOkB stopEnvOkB
      ("w3")).1 (by decide),
   (claim_C4_stop_idempotent ⟨[("w3", 0)], [("w3", 1)], 1⟩ stopEnvOkA stopEnvOkA ⟨[], []⟩
      stopEnvOkB stopEnvOkB ("w3")).2.2.1 (by decide)⟩

/-- C5: `_time_left` returns `None` for a lab not in the registry; for a
registered lab it returns `max(0, TTL - (now - created_at))` (the total is a
natural number equal to the clamped value, hence never negative) split as
`total // 60` minutes and `total % 60` seconds, it is non-increasing as `now`
grows, and it is exactly `{0, 0, 0}` at or after `created_at + TTL`. -/
theorem claim_C5_time_left (created : List (String × Int)) (ttl : Int) (l : String)
    (now now2 ts : Int) :
    (getEntry created l = none → timeLeft created ttl l now = none) ∧
    (getEntry created l = some ts →
      timeLeft created ttl l now = some ⟨(ttl - (now - ts)).toNat / 60,
        (ttl - (now - ts)).toNat % 60, (ttl - (now - ts)).toNat⟩ ∧
      ((ttl - (now - ts)).toNat : Int) = max 0 (ttl - (now - ts)) ∧
      (now ≤ now2 → (ttl - (now2 - ts)).toNat ≤ (ttl - (now - ts)).toNat) ∧
      (ts + ttl ≤ now → timeLeft created ttl l now = some ⟨0, 0, 0⟩)) := by
  refine ⟨timeLeft_none, fun h => ⟨timeLeft_some h, ?_, ?_, ?_⟩⟩
  · rcases le_or_lt 0 (ttl - (now - ts)) with h3 | h3
    · rw [Int.toNat_of_nonneg h3, max_eq_right h3]
    · rw [max_eq_left (le_of_lt h3)]
      have hz : (ttl - (now - ts)).toNat = 0 := Int.toNat_of_nonpos (le_of_lt h3)
      rw [hz]
      rfl
  · intro h2
    omega
  · intro h2
    rw [timeLeft_some h]
    have hz : (ttl - (now - ts)).toNat = 0 := by omega
    rw [hz]

theorem claim_C5_time_left_witness :
    timeLeft [("w4", 50)] 3600 ("w4") 100 = some ⟨59, 10, 3550⟩ ∧
    timeLeft [("w4", 50)] 3600 ("w4") 4000 = some ⟨0, 0, 0⟩ := by
  have h1 := ((claim_C5_time_left [("w4", 50)] 3600 ("w4") 100 200 50).2 (by decide)).1
  have h2 := ((claim_C5_time_left [("w4", 50)] 3600 ("w4") 4000 4000 50).2
    (by decide)).2.2.2 (by decide)
  rw [h1, h2]
  refine ⟨by decide, rfl⟩

/-- C6: `_find_available_index` returns the smallest non-negative integer not
among the active replica indices, where that index set is re-derived from the
given live pod listing alone — an index is in the set exactly when some listed
pod name starts with the StatefulSet prefix and carries it as its numeric
tail. -/
theorem claim_C6_find_available_index (pods : List String) (i j : Nat) :
    findAvailableIndex pods ∉ activeIndices pods ∧
    (j < findAvailableIndex pods → j ∈ activeIndices pods) ∧
    (i ∈ activeIndices pods ↔
      ∃ n ∈ pods, podHasStsName n = true ∧ podIndex n = some i) := by
  refine ⟨(smallestFree_spec _).1, fun hj => (smallestFree_spec _).2 j hj, ?_⟩
  unfold activeIndices
  rw [List.mem_filterMap]
  constructor
  · intro ⟨n, hn, he⟩
    by_cases hs : podHasStsName n = true
    · rw [if_pos hs] at he
      exact ⟨n, hn, hs, he⟩
    · rw [if_neg hs] at he
      cases he
  · intro ⟨n, hn, hs, he⟩
    exact ⟨n, hn, by rw [if_pos hs]; exact he⟩

theorem claim_C6_find_available_index_witness :
    findAvailableIndex ["interactive-labs-0", "interactive-labs-2", "web-1"] ∉
      activeIndices ["interactive-labs-0", "interactive-labs-2", "web-1"] ∧
    0 ∈ activeIndices ["interactive-labs-0", "interactive-labs-2", "web-1"] :=
  ⟨(claim_C6_find_available_index ["interactive-labs-0", "interactive-labs-2", "web-1"]
      0 0).1,
   (claim_C6_find_available_index ["interactive-labs-0", "interactive-labs-2", "web-1"]
      0 0).2.1 (by decide)⟩

/-- C7: on a janitor tick, `stop` is called exactly on the labs whose elapsed
time strictly exceeds the TTL — membership in the processed list is equivalent
to `now - created_at > TTL`, the processed list does not depend on the cleanup
outcomes (so one failing stop never prevents the rest), a lab created
`TTL + 1` seconds ago is stopped and a lab created `TTL - 10` seconds ago is
left untouched. -/
theorem claim_C7_janitor_tick (s : LabStateA) (ttl now : Int)
    (env env2 : String → StopEnvA) (l : String) :
    ((janitorTickA s ttl now env).2 = expiredLabs s.created ttl now) ∧
    (l ∈ (janitorTickA s ttl now env).2 ↔
      ∃ c : Int, (l, c) ∈ s.created ∧ now - c > ttl) ∧
    ((janitorTickA s ttl now env).2 = (janitorTickA s ttl now env2).2) ∧
    (l ∈ (janitorTickA ⟨[(l, 0)], [(l, now - ttl - 1)], 0⟩ ttl now env).2) ∧
    (l ∉ (janitorTickA ⟨[(l, 0)], [(l, now - ttl + 10)], 0⟩ ttl now env).2) := by
  refine ⟨rfl, mem_expiredLabs, rfl, ?_, ?_⟩
  · exact mem_expiredLabs.mpr ⟨now - ttl - 1, by simp, by omega⟩
  · intro h
    obtain ⟨c, hc, hgt⟩ := mem_expiredLabs.mp h
    simp at hc
    omega

theorem claim_C7_janitor_tick_witness :
    ("w5") ∈ (janitorTickA ⟨[(("w5"), 0)], [(("w5"), (2000 : Int) - 900 - 1)], 0⟩ 900 2000
      (fun _ => stopEnvOkA)).2 ∧
    ("w5") ∉ (janitorTickA ⟨[(("w5"), 0)], [(("w5"), (2000 : Int) - 900 + 10)], 0⟩ 900 2000
      (fun _ => stopEnvOkA)).2 :=
  ⟨(claim_C7_janitor_tick initA 900 2000 (fun _ => stopEnvOkA) (fun _ => stopEnvOkA)
      ("w5")).2.2.2.1,
   (claim_C7_janitor_tick initA 900 2000 (fun _ => stopEnvOkA) (fun _ => stopEnvOkA)
      ("w5")).2.2.2.2⟩

/-- C8: `_patch_ingress` first drops every rule for the lab's host and appends
the lab's rule (path `/`, type `Prefix`, service `<lab_id>-svc`, port 80) iff
`add`; afterwards the rule list holds exactly one rule for that host when
`add`, none otherwise, and the rules of every other host are unchanged. -/
theorem claim_C8_patch_ingress (rules : Option (List IngressRule)) (l h' : String) :
    ((patchIngressRules rules l true).filter (fun r => r.host == labHost l) =
      [⟨labHost l, [⟨"/", "Prefix", svcName l, 80⟩]⟩]) ∧
    ((patchIngressRules rules l false).filter (fun r => r.host == labHost l) = []) ∧
    (h' ≠ labHost l →
      (patchIngressRules rules l true).filter (fun r => r.host == h') =
        (rules.getD []).filter (fun r => r.host == h') ∧
      (patchIngressRules rules l false).filter (fun r => r.host == h') =
        (rules.getD []).filter (fun r => r.host == h')) := by
  unfold patchIngressRules
  refine ⟨?_, ?_, ?_⟩
  · rw [if_pos rfl, List.filter_append, filter_self_of_kept]
    simp [labRule]
  · rw [if_neg (by simp), filter_self_of_kept]
  · intro hne
    constructor
    · rw [if_pos rfl, List.filter_append, filter_other_of_kept _ _ _ hne]
      have hlr : ¬labHost l = h' := fun he => hne he.symm
      simp [List.filter_cons, labRule, hlr]
    · rw [if_neg (by simp), filter_other_of_kept _ _ _ hne]

theorem claim_C8_patch_ingress_witness :
    (patchIngressRules (some [⟨("other.dev.labs.rosettacloud.app"), []⟩]) ("lab-9")
        true).filter (fun r => r.host == labHost ("lab-9")) =
      [⟨labHost ("lab-9"), [⟨"/", "Prefix", svcName ("lab-9"), 80⟩]⟩] ∧
    (patchIngressRules (some [⟨("other.dev.labs.rosettacloud.app"), []⟩]) ("lab-9")
        true).filter (fun r => r.host == ("other.dev.labs.rosettacloud.app")) =
      [⟨("other.dev.labs.rosettacloud.app"), []⟩] := by
  refine ⟨(claim_C8_patch_ingress (some [⟨("other.dev.labs.rosettacloud.app"), []⟩])
    ("lab-9") ("other.dev.labs.rosettacloud.app")).1, ?_⟩
  have h := ((claim_C8_patch_ingress (some [⟨("other.dev.labs.rosettacloud.app"), []⟩])
    ("lab-9") ("other.dev.labs.rosettacloud.app")).2.2 (by decide)).1
  rw [h]
  decide

/-- C10: in the StatefulSet variant, a `stop` whose cleanup raised returns
`False`, restores the active entry but not the `created_at` entry; afterwards
`get_lab_info` returns a snapshot with `time_remaining = None`,
`get_time_remaining` returns `None`, and no janitor tick will ever select the
lab again. -/
theorem claim_C10_failed_stop_orphan (s : LabStateA) (env : StopEnvA) (l : String)
    (idx : Nat) (ttl now now2 : Int) (hget : getEntry s.active l = some idx)
    (hfail : (stopA s env l).ret = false) :
    getEntry (stopA s env l).state.active l = some idx ∧
    getEntry (stopA s env l).state.created l = none ∧
    getLabInfoA (stopA s env l).state ttl l now = some ⟨l, labHost l, idx, none⟩ ∧
    timeLeft (stopA s env l).state.created ttl l now = none ∧
    l ∉ expiredLabs (stopA s env l).state.created ttl now2 := by
  obtain ⟨hc, ht, hf⟩ := @stopA_spec s env l idx hget
  have ha : getEntry (stopA s env l).state.active l = some idx := by
    rw [hf hfail]
    exact getEntry_setEntry_self _ _ _
  have hcr : getEntry (stopA s env l).state.created l = none := by
    rw [hc]
    exact getEntry_eraseEntry_self _ _
  refine ⟨ha, hcr, ?_, timeLeft_none hcr, ?_⟩
  · rw [getLabInfoA_some ha, timeLeft_none hcr]
  · rw [hc]
    exact not_mem_expired_erased _ _ _ _

theorem claim_C10_failed_stop_orphan_witness :
    getEntry (stopA ⟨[("w6", 0)], [("w6", 5)], 1⟩ stopEnvPatchErrA ("w6")).state.active
      ("w6") = some 0 ∧
    getEntry (stopA ⟨[("w6", 0)], [("w6", 5)], 1⟩ stopEnvPatchErrA ("w6")).state.created
      ("w6") = none ∧
    getLabInfoA (stopA ⟨[("w6", 0)], [("w6", 5)], 1⟩ stopEnvPatchErrA ("w6")).state 3600
      ("w6") 10 = some ⟨("w6"), labHost ("w6"), 0, none⟩ ∧
    timeLeft (stopA ⟨[("w6", 0)], [("w6", 5)], 1⟩ stopEnvPatchErrA ("w6")).state.created
      3600 ("w6") 10 = none ∧
    ("w6") ∉ expiredLabs (stopA ⟨[("w6", 0)], [("w6", 5)], 1⟩ stopEnvPatchErrA
      ("w6")).state.created 3600 99999 :=
  claim_C10_failed_stop_orphan ⟨[("w6", 0)], [("w6", 5)], 1⟩ stopEnvPatchErrA ("w6") 0
    3600 10 99999 (by decide) (by decide)

theorem b64idx_b64chr : ∀ s : Nat, s < 64 → b64idx (b64chr s) = s := by
  decide

theorem b64chr_ne_pad : ∀ s : Nat, s < 64 → b64chr s ≠ 61 := by
  decide

theorem b64chr_safe (s : Nat) : b64chr s ≠ 34 ∧ b64chr s ≠ 92 := by
  by_cases h : s < 64
  · exact (by decide : ∀ u : Nat, u < 64 → b64chr u ≠ 34 ∧ b64chr u ≠ 92) s h
  · unfold b64chr
    rw [List.getD_eq_default _ _ (by rw [(by decide : b64table.length = 64)]; omega)]
    decide

theorem mem_b64encode : ∀ (l : List Nat) (c : Nat), c ∈ b64encode l →
    c = 61 ∨ ∃ s : Nat, c = b64chr s
  | [], c, hc => by simp [b64encode] at hc
  | [a], c, hc => by
    simp only [b64encode, List.mem_cons, List.not_mem_nil, or_false] at hc
    rcases hc with rfl | rfl | rfl | rfl
    · exact Or.inr ⟨_, rfl⟩
    · exact Or.inr ⟨_, rfl⟩
    · exact Or.inl rfl
    · exact Or.inl rfl
  | [a, b], c, hc => by
    simp only [b64encode, List.mem_cons, List.not_mem_nil, or_false] at hc
    rcases hc with rfl | rfl | rfl | rfl
    · exact Or.inr ⟨_, rfl⟩
    · exact Or.inr ⟨_, rfl⟩
    · exact Or.inr ⟨_, rfl⟩
    · exact Or.inl rfl
  | a :: b :: d :: rest, c, hc => by
    simp only [b64encode, List.mem_cons] at hc
    rcases hc with rfl | rfl | rfl | rfl | hmem
    · exact Or.inr ⟨_, rfl⟩
    · exact Or.inr ⟨_, rfl⟩
    · exact Or.inr ⟨_, rfl⟩
    · exact Or.inr ⟨_, rfl⟩
    · exact mem_b64encode rest c hmem

theorem b64encode_safe (l : List Nat) : ∀ c ∈ b64encode l, c ≠ 34 ∧ c ≠ 92 := by
  intro c hc
  rcases mem_b64encode l c hc with rfl | ⟨s, rfl⟩
  · decide
  · exact b64chr_safe s

theorem b64_roundtrip : ∀ l : List Nat, (∀ b ∈ l, b < 256) → b64decode (b64encode l) = l
  | [], _ => by simp [b64encode, b64decode]
  | [a], h => by
    have ha : a < 256 := h a (List.mem_cons_self a [])
    have h1 : b64idx (b64chr (a / 4)) = a / 4 := b64idx_b64chr _ (by omega)
    have h2 : b64idx (b64chr (a % 4 * 16)) = a % 4 * 16 := b64idx_b64chr _ (by omega)
    simp only [b64encode, b64decode, if_pos rfl, h1, h2]
    have : a / 4 * 4 + a % 4 * 16 / 16 = a := by omega
    rw [this]
    simp
  | [a, b], h => by
    have ha : a < 256 := h a (by simp)
    have hb : b < 256 := h b (by simp)
    have h1 : b64idx (b64chr (a / 4)) = a / 4 := b64idx_b64chr _ (by omega)
    have h2 : b64idx (b64chr (a % 4 * 16 + b / 16)) = a % 4 * 16 + b / 16 :=
      b64idx_b64chr _ (by omega)
    have h3 : b64idx (b64chr (b % 16 * 4)) = b % 16 * 4 := b64idx_b64chr _ (by omega)
    simp only [b64encode, b64decode, if_neg (b64chr_ne_pad (b % 16 * 4) (by omega)),
      if_pos rfl, h1, h2, h3]
    have e1 : a / 4 * 4 + (a % 4 * 16 + b / 16) / 16 = a := by omega
    have e2 : (a % 4 * 16 + b / 16) % 16 * 16 + b % 16 * 4 / 4 = b := by omega
    rw [e1, e2]
    simp
  | a :: b :: d :: rest, h => by
    have ha : a < 256 := h a (by simp)
    have hb : b < 256 := h b (by simp)
    have hd : d < 256 := h d (by simp)
    have h1 : b64idx (b64chr (a / 4)) = a / 4 := b64idx_b64chr _ (by omega)
    have h2 : b64idx (b64chr (a % 4 * 16 + b / 16)) = a % 4 * 16 + b / 16 :=
      b64idx_b64chr _ (by omega)
    have h3 : b64idx (b64chr (b % 16 * 4 + d / 64)) = b % 16 * 4 + d / 64 :=
      b64idx_b64chr _ (by omega)
    have h4 : b64idx (b64chr (d % 64)) = d % 64 := b64idx_b64chr _ (by omega)
    have ih := b64_roundtrip rest (fun x hx => h x (by simp [hx]))
    simp only [b64encode, b64decode, if_neg (b64chr_ne_pad (b % 16 * 4 + d / 64) (by omega)),
      if_neg (b64chr_ne_pad (d % 64) (by omega)), h1, h2, h3, h4, ih]
    have e1 : a / 4 * 4 + (a % 4 * 16 + b / 16) / 16 = a := by omega
    have e2 : (a % 4 * 16 + b / 16) % 16 * 16 + (b % 16 * 4 + d / 64) / 4 = b := by omega
    have e3 : (b % 16 * 4 + d / 64) % 4 * 64 + d % 64 = d := by omega
    rw [e1, e2, e3]

theorem scanStr_append (s rest : List Nat) (h : ∀ c ∈ s, c ≠ 34 ∧ c ≠ 92) :
    scanStr (s ++ 34 :: rest) = some (s, rest) := by
  induction s with
  | nil => simp [scanStr]
  | cons c s ih =>
    obtain ⟨hc1, hc2⟩ := h c (List.mem_cons_self c s)
    have ih2 := ih (fun d hd => h d (List.mem_cons_of_mem c hd))
    have ih3 : scanStr (s.append (34 :: rest)) = some (s, rest) := ih2
    simp only [List.cons_append, scanStr, if_neg hc1, if_neg hc2, ih2, ih3]

theorem scanMembers_enc : ∀ (ms : List (List Nat × List Nat)) (f : Nat), ms ≠ [] →
    ms.length ≤ f →
    (∀ p ∈ ms, (∀ c ∈ p.1, c ≠ 34 ∧ c ≠ 92) ∧ (∀ c ∈ p.2, c ≠ 34 ∧ c ≠ 92)) →
    scanMembers f (encMembers ms) = some (ms, [])
  | [], _, hne, _, _ => absurd rfl hne
  | [(k, v)], f, _, hf, hsafe => by
    obtain ⟨hk, hv⟩ := hsafe (k, v) (by simp)
    cases f with
    | zero => simp at hf
    | succ f =>
      simp [encMembers, scanMembers, scanStr_append _ _ hk, scanStr_append _ _ hv]
  | (k, v) :: q :: ms, f, _, hf, hsafe => by
    obtain ⟨hk, hv⟩ := hsafe (k, v) (by simp)
    cases f with
    | zero => simp at hf
    | succ f =>
      have ih := scanMembers_enc (q :: ms) f (by simp) (by simpa using hf)
        (fun p hp => hsafe p (List.mem_cons_of_mem _ hp))
      simp [encMembers, scanMembers, scanStr_append _ _ hk, scanStr_append _ _ hv, ih]

theorem encMembers_length_ge : ∀ ms : List (List Nat × List Nat),
    ms.length ≤ (encMembers ms).length
  | [] => by simp
  | [(k, v)] => by simp [encMembers]
  | (k, v) :: q :: ms => by
    have ih := encMembers_length_ge (q :: ms)
    simp only [encMembers, List.length_cons, List.length_append] at ih ⊢
    omega

theorem readFlatObj_enc (ms : List (List Nat × List Nat)) (hne : ms ≠ [])
    (hsafe : ∀ p ∈ ms, (∀ c ∈ p.1, c ≠ 34 ∧ c ≠ 92) ∧ (∀ c ∈ p.2, c ≠ 34 ∧ c ≠ 92)) :
    readFlatObj (encodeFlatObj ms) = some ms := by
  have hscan := scanMembers_enc ms ((encMembers ms).length + 1) hne
    (le_trans (encMembers_length_ge ms) (by omega)) hsafe
  simp [readFlatObj, encodeFlatObj, hscan]

theorem dictLookup_wrapDoc (rid p : List Nat) :
    dictLookup [(keySchema, asciiBytes ("1.0")), (keyRequestId, rid),
      (keyChannel, asciiBytes ("stdin")), (keyPayload, p)] keyPayload = some p := by
  simp [dictLookup, List.find?]

/-- `_unwrap (_wrap t)` recovers `t`: the frame is `pack("<I", len)` +
JSON document + sentinel `0`, and unwrapping strips 4 leading bytes and the
final byte, reads the JSON, and base64-decodes the `Payload` field. -/
theorem wrap_unwrap (rid t : List Nat) (ht : ∀ b ∈ t, b < 256)
    (hrid : ∀ c ∈ rid, c ≠ 34 ∧ c ≠ 92) (w : List Nat) (hw : wrap rid t = some w) :
    unwrap w = some t := by
  unfold wrap at hw
  by_cases hlen : (wrapDoc rid t).length < 4294967296
  · rw [if_pos hlen] at hw
    injection hw with hw
    subst hw
    unfold unwrap
    have hdrop : ((pack4le (wrapDoc rid t).length ++ (wrapDoc rid t ++ [0])).drop 4) =
        wrapDoc rid t ++ [0] := by
      simp [pack4le]
    have hshape : pack4le (wrapDoc rid t).length ++ wrapDoc rid t ++ [0] =
        pack4le (wrapDoc rid t).length ++ (wrapDoc rid t ++ [0]) := by
      rw [List.append_assoc]
    rw [hshape, hdrop, List.dropLast_concat]
    have hsafe : ∀ p ∈ [(keySchema, asciiBytes ("1.0")), (keyRequestId, rid),
        (keyChannel, asciiBytes ("stdin")), (keyPayload, b64encode t)],
        (∀ c ∈ p.1, c ≠ 34 ∧ c ≠ 92) ∧ (∀ c ∈ p.2, c ≠ 34 ∧ c ≠ 92) := by
      intro p hp
      simp only [List.mem_cons, List.not_mem_nil, or_false] at hp
      rcases hp with rfl | rfl | rfl | rfl
      · exact ⟨(by decide : ∀ c ∈ keySchema, c ≠ 34 ∧ c ≠ 92),
          (by decide : ∀ c ∈ asciiBytes ("1.0"), c ≠ 34 ∧ c ≠ 92)⟩
      · exact ⟨(by decide : ∀ c ∈ keyRequestId, c ≠ 34 ∧ c ≠ 92), hrid⟩
      · exact ⟨(by decide : ∀ c ∈ keyChannel, c ≠ 34 ∧ c ≠ 92),
          (by decide : ∀ c ∈ asciiBytes ("stdin"), c ≠ 34 ∧ c ≠ 92)⟩
      · exact ⟨(by decide : ∀ c ∈ keyPayload, c ≠ 34 ∧ c ≠ 92), b64encode_safe t⟩
    rw [show wrapDoc rid t = encodeFlatObj [(keySchema, asciiBytes ("1.0")),
      (keyRequestId, rid), (keyChannel, asciiBytes ("stdin")),
      (keyPayload, b64encode t)] from rfl]
    simp only [readFlatObj_enc _ (by simp) hsafe, dictLookup_wrapDoc, b64_roundtrip t ht]
  · rw [if_neg hlen] at hw
    cases hw

/-- C9: `_wrap` produces a 4-byte little-endian length prefix, the JSON
document carrying the fresh request id, the fixed channel name `stdin` and the
base64-encoded text, followed by the single sentinel byte `0`; `_unwrap`
strips the length prefix and the sentinel, reads the JSON and base64-decodes
the payload, so `_unwrap (_wrap t) = t` for every text `t` (given as its UTF-8
bytes; `rid` is the `str(uuid.uuid4())` value, whose characters — like those
of any uuid — are not quotes or backslashes). -/
theorem claim_C9_frame_roundtrip (rid t w : List Nat) (ht : ∀ b ∈ t, b < 256)
    (hrid : ∀ c ∈ rid, c ≠ 34 ∧ c ≠ 92) (hw : wrap rid t = some w) :
    w = pack4le (wrapDoc rid t).length ++ wrapDoc rid t ++ [0] ∧ unwrap w = some t := by
  have hshape : w = pack4le (wrapDoc rid t).length ++ wrapDoc rid t ++ [0] := by
    unfold wrap at hw
    by_cases hlen : (wrapDoc rid t).length < 4294967296
    · rw [if_pos hlen] at hw
      exact (Option.some.inj hw).symm
    · rw [if_neg hlen] at hw
      cases hw
  exact ⟨hshape, wrap_unwrap rid t ht hrid w hw⟩

set_option maxRecDepth 40000 in
theorem claim_C9_frame_roundtrip_witness :
    wrap (asciiBytes ("a1b2c3d4-0000-4000-8000-123456789abc")) [104, 105, 10] =
      some ((wrap (asciiBytes ("a1b2c3d4-0000-4000-8000-123456789abc"))
        [104, 105, 10]).getD []) ∧
    unwrap ((wrap (asciiBytes ("a1b2c3d4-0000-4000-8000-123456789abc"))
      [104, 105, 10]).getD []) = some [104, 105, 10] :=
  ⟨by decide,
   (claim_C9_frame_roundtrip (asciiBytes ("a1b2c3d4-0000-4000-8000-123456789abc"))
     [104, 105, 10] _ (by decide) (by decide) (by decide)).2⟩

end RosettaCloud
